import Mathlib

/-!
Verification of the transport / request-correlation engine and the
multi-server aggregation layer of the `mcp-client-kit` repository.

The definitions below are a shallow embedding of the TypeScript source:

* `Mck.validateResponse`, `Mck.isErrorResponse` — `src/utils/jsonrpc.ts`
* `Mck.handleResponseStep`, `Mck.sendStep`, `Mck.cleanupStep`,
  `Mck.fireStep`, `Mck.sendFailStep`, `Mck.step` — `BaseTransport.ts`
  (the pending-request table, request timeouts, response correlation,
  and the cleanup logic shared by all three transports)
* `Mck.splitNl`, `Mck.handleStreamData` — the newline framing shared
  verbatim by `HttpStreamTransport.handleStreamData` and
  `StdioTransport.handleStreamData`
* `Mck.listTools` / `Mck.listResources` / `Mck.listPrompts`,
  `Mck.connectModel`, `Mck.callToolStep`, `Mck.getConnectedServers`,
  `Mck.isServerConnected`, `Mck.transportDeath`, `Mck.clientDisconnect`
  — `McpClient.ts`
* `Mck.sseStep` — `SseTransport.connect` event handlers.

JavaScript strings are modelled as `List Char`; the global
`requestIdCounter` of `jsonrpc.ts` is carried as `nextId` in the
transport state (a send may consume any id at least `nextId`, which
accounts for other transports sharing the process-wide counter).
Asynchronous callback interleavings are modelled as a small-step event
relation (`Mck.Trace`): each event is one atomic callback run of the
single-threaded JavaScript event loop.
-/

namespace Mck

/-- A JSON-RPC id as restricted by the source's `id: string | number`. -/
inductive RpcId where
  | num (n : Int)
  | str (s : String)
deriving DecidableEq, Repr

/-- The `id` field of a parsed response object: absent (`undefined`),
`null`, or an id value.  `validateResponse` rejects only `undefined`
(`resp.id === undefined`); `handleResponse` additionally drops falsy
ids (`!response.id`). -/
inductive IdField where
  | undef
  | nullv
  | idv (i : RpcId)
deriving DecidableEq, Repr

/-- The `error` field of a parsed response object: absent, `null`, or an
object carrying `code` and `message`.  `isErrorResponse` tests
`response.error !== undefined`, which is also true of `null`. -/
inductive ErrField where
  | undef
  | nullv
  | objv (code : Int) (msg : String)
deriving DecidableEq, Repr

/-- The fields of a JSON value that `validateResponse` and
`handleResponse` inspect, as produced by `JSON.parse`. -/
structure RespObj where
  jsonrpc : Option String
  id : IdField
  error : ErrField
  result : Option String
deriving DecidableEq, Repr

/-- The outcome of `JSON.parse` on one inbound frame: a throw or a
non-object value (both make `validateResponse` throw), or an object. -/
inductive Frame where
  | notObj
  | obj (r : RespObj)
deriving DecidableEq, Repr

/-- `validateResponse` from `src/utils/jsonrpc.ts`: throws unless the
value is an object whose `jsonrpc` field is `'2.0'` and whose `id`
field is not `undefined`. -/
def validateResponse (f : Frame) : Except String RespObj :=
  match f with
  | .notObj => .error "Invalid JSON-RPC response: not an object"
  | .obj r =>
    if r.jsonrpc ≠ some "2.0" then
      .error "Invalid JSON-RPC response: missing or invalid jsonrpc field"
    else if r.id = IdField.undef then
      .error "Invalid JSON-RPC response: missing id field"
    else
      .ok r

/-- `isErrorResponse` from `src/utils/jsonrpc.ts`:
`response.error !== undefined`. -/
def isErrorResponse (r : RespObj) : Bool :=
  r.error ≠ ErrField.undef

/-- JavaScript truthiness of an id value (`!response.id` in
`handleResponse`): `0` and the empty string are falsy. -/
def idTruthy (i : RpcId) : Bool :=
  match i with
  | .num n => n ≠ 0
  | .str s => s ≠ ""

/-- `requestTimeout` from `BaseTransport.ts` line 20: 30000 ms. -/
def requestTimeout : Nat := 30000

/-- How a pending waiter's callback is invoked when it is settled. -/
inductive Outcome where
  | resolvedResp (r : RespObj)
  | rpcErr (code : Int) (msg : String)
  | timedOut (i : RpcId)
  | sendErr
  | closedErr
deriving DecidableEq, Repr

/-- An observable action of one callback run: a waiter callback
invocation, a `console.error` log, or a synchronous throw. -/
inductive Act where
  | settle (i : RpcId) (o : Outcome)
  | logged (msg : String)
  | threw (msg : String)
deriving DecidableEq, Repr

/-- State of one `BaseTransport`: the `connected` flag, the
pending-request table (`Map` from id to waiter; each entry also owns
its timer, stored here as the timer's absolute deadline), the set of
`sendMessage` calls whose promise has not yet settled, a ghost record
of send instants, the current time, and the next value of the
process-wide request-id counter. -/
structure TState where
  connected : Bool
  table : List (RpcId × Nat)
  sending : List RpcId
  sentAt : List (RpcId × Nat)
  now : Nat
  nextId : Int
deriving DecidableEq, Repr

/-- A freshly constructed transport: not connected, empty table, and
the id counter of `jsonrpc.ts` about to hand out 1. -/
def initT : TState := ⟨false, [], [], [], 0, 1⟩

/-- The keys of the pending-request table. -/
def keys (t : List (RpcId × Nat)) : List RpcId := t.map Prod.fst

/-- JavaScript `Map.set`: replaces in place if the key is present,
otherwise appends (`Map` iteration is in insertion order). -/
def mapSet (t : List (RpcId × Nat)) (i : RpcId) (d : Nat) : List (RpcId × Nat) :=
  if i ∈ keys t then t.map (fun p => if p.1 = i then (i, d) else p)
  else t ++ [(i, d)]

/-- JavaScript `Map.delete` on the pending-request table (a `Map` holds
at most one entry per key). -/
def mapDelete (t : List (RpcId × Nat)) (i : RpcId) : List (RpcId × Nat) :=
  t.filter (fun p => p.1 ≠ i)

/-- `BaseTransport.handleResponse`: parse and validate the frame
(failures are caught and logged); drop frames with a falsy id; drop
frames whose id is not a table key; otherwise clear the entry's timer,
delete the entry, and reject (error present) or resolve the waiter.
When the error field is `null`, evaluating `response.error.code` for
the rejection message throws, and the outer catch swallows it: the
entry is still removed but the waiter is never settled. -/
def handleResponseStep (st : TState) (f : Frame) : TState × List Act :=
  match validateResponse f with
  | .error e => (st, [.logged e])
  | .ok r =>
    match r.id with
    | .undef => (st, [])
    | .nullv => (st, [])
    | .idv i =>
      if idTruthy i then
        if i ∈ keys st.table then
          let st' := { st with table := mapDelete st.table i }
          match r.error with
          | .undef => (st', [.settle i (.resolvedResp r)])
          | .nullv => (st', [.logged "TypeError: cannot read code of null"])
          | .objv c m => (st', [.settle i (.rpcErr c m)])
        else (st, [])
      else (st, [])

/-- `createRequest` followed by `BaseTransport.sendRequest`, the only
way the repository issues a request.  `createRequest` consumes id `k`
from the process-wide counter; `sendRequest` throws synchronously if
the transport is not connected, and otherwise registers the pending
entry with a timer due `requestTimeout` from now and starts
`sendMessage`. -/
def sendStep (st : TState) (k : Int) : TState × List Act :=
  if st.connected then
    ({ st with
        nextId := k + 1,
        table := mapSet st.table (RpcId.num k) (st.now + requestTimeout),
        sending := st.sending ++ [RpcId.num k],
        sentAt := st.sentAt ++ [(RpcId.num k, st.now)] },
     [])
  else
    ({ st with nextId := k + 1 }, [.threw "Transport not connected"])

/-- The timer callback installed by `sendRequest`: delete the table
entry and reject the waiter with the timeout error.  It never consults
the `connected` flag. -/
def fireStep (st : TState) (i : RpcId) : TState × List Act :=
  ({ st with table := mapDelete st.table i }, [.settle i (.timedOut i)])

/-- The `.catch` handler of `sendMessage` inside `sendRequest`: delete
the entry, clear its timer, and reject the waiter (unconditionally,
even if the waiter was already settled — a second settlement of a
JavaScript promise is a no-op). -/
def sendFailStep (st : TState) (i : RpcId) : TState × List Act :=
  ({ st with sending := st.sending.erase i, table := mapDelete st.table i },
   [.settle i .sendErr])

/-- `BaseTransport.cleanup`: reject every pending waiter with the
transport-disconnected error (clearing its timer), clear the table,
and mark the transport disconnected.  All three transports'
`disconnect` methods and all post-connect failure paths call it. -/
def cleanupStep (st : TState) : TState × List Act :=
  ({ st with table := [], connected := false },
   st.table.map (fun p => Act.settle p.1 Outcome.closedErr))

/-- One atomic callback run of the event loop, from the transport's
point of view. -/
inductive Ev where
  | connectOk
  | send (k : Int)
  | sendOk (i : RpcId)
  | sendFail (i : RpcId)
  | frame (f : Frame)
  | fire (i : RpcId)
  | close
  | advance (d : Nat)
deriving DecidableEq, Repr

/-- The state transition and emitted actions of each event. -/
def step (st : TState) : Ev → TState × List Act
  | .connectOk => ({ st with connected := true }, [])
  | .send k => sendStep st k
  | .sendOk i => ({ st with sending := st.sending.erase i }, [])
  | .sendFail i => sendFailStep st i
  | .frame f => handleResponseStep st f
  | .fire i => fireStep st i
  | .close => cleanupStep st
  | .advance d => ({ st with now := st.now + d }, [])

/-- Which events the JavaScript runtime can actually deliver in a given
state: a `sendMessage` promise settles at most once and only for a
request that was sent; a timer fires exactly at its deadline and only
while it has not been cleared (every deletion of a table entry also
clears its timer); time cannot pass an armed timer's deadline without
the timer firing. -/
def enabled (st : TState) : Ev → Bool
  | .connectOk => true
  | .send k => st.nextId ≤ k
  | .sendOk i => i ∈ st.sending
  | .sendFail i => i ∈ st.sending
  | .frame _ => true
  | .fire i => (i, st.now) ∈ st.table
  | .close => true
  | .advance d => st.table.all (fun p => st.now + d ≤ p.2)

/-- Executions of one transport: the reachable states together with the
concatenated actions emitted along the way. -/
inductive Trace : TState → List Act → Prop where
  | nil : Trace initT []
  | cons {st acts e} : Trace st acts → enabled st e = true →
      Trace (step st e).1 (acts ++ (step st e).2)

/-- `a` is a waiter-callback invocation (resolution or rejection) for
request id `i`. -/
def settlesId (i : RpcId) (a : Act) : Bool :=
  match a with
  | .settle j _ => j = i
  | _ => false

/-- `a` settles id `i` through the response path, the timer path, or
the cleanup path (the three paths that are guarded by table
membership or timer liveness; the `sendMessage` failure path is not). -/
def primSettle (i : RpcId) (a : Act) : Bool :=
  match a with
  | .settle j o =>
    j = i && (match o with | .sendErr => false | _ => true)
  | _ => false

/-! ## Newline framing

`HttpStreamTransport.handleStreamData` and `StdioTransport.handleStreamData`
are textually identical: append the chunk to the buffer, split on `'\n'`,
keep the last (incomplete) piece as the new buffer, and hand every other
piece, trimmed, to `handleResponse` when non-empty.  JavaScript strings
are modelled as `List Char`. -/

/-- `String.prototype.split('\n')`: the list of maximal `'\n'`-free
segments; always non-empty, and empty input yields `[[]]`. -/
def splitNl : List Char → List (List Char)
  | [] => [[]]
  | c :: cs =>
    if c = '\n' then [] :: splitNl cs
    else
      match splitNl cs with
      | [] => [[c]]
      | r :: rs => (c :: r) :: rs

/-- ASCII whitespace as removed by `String.prototype.trim` (the exotic
Unicode whitespace code points are irrelevant to framing). -/
def isWs (c : Char) : Bool :=
  c = ' ' || c = '\t' || c = '\n' || c = '\r' ||
  c = Char.ofNat 11 || c = Char.ofNat 12

/-- `String.prototype.trim`: strip whitespace from both ends. -/
def jsTrim (l : List Char) : List Char :=
  ((l.dropWhile isWs).reverse.dropWhile isWs).reverse

/-- One call of `handleStreamData` on the current buffer and a new
chunk: `lines = (buffer + chunk).split('\n')`, the new buffer is
`lines.pop()` (the trailing incomplete line), and the other lines are
passed, trimmed, to `handleResponse` when non-empty, in order. -/
def handleStreamData (buffer chunk : List Char) :
    List Char × List (List Char) :=
  ((splitNl (buffer ++ chunk)).getLastD [],
   (((splitNl (buffer ++ chunk)).dropLast.map jsTrim).filter (fun l => l ≠ [])))

/-- Feeding a sequence of chunks through `handleStreamData`, starting
from the transport's initial empty buffer, accumulating all delivered
lines. -/
def processChunks (chunks : List (List Char)) :
    List Char × List (List Char) :=
  chunks.foldl
    (fun acc c =>
      ((handleStreamData acc.1 c).1, acc.2 ++ (handleStreamData acc.1 c).2))
    ([], [])

/-- One character of the framing loop, as a left fold over the stream:
state is (complete lines so far, current buffer).  Auxiliary
characterization used to prove that framing depends only on the
concatenated stream. -/
def feedChar (s : List (List Char) × List Char) (c : Char) :
    List (List Char) × List Char :=
  if c = '\n' then (s.1 ++ [s.2], []) else (s.1, s.2 ++ [c])

/-- The per-line processing applied to complete lines: trim, drop
empties. -/
def processLines (ls : List (List Char)) : List (List Char) :=
  (ls.map jsTrim).filter (fun l => l ≠ [])

/-! ## Aggregation layer (`McpClient.ts`) -/

/-- A tool as listed by a server (`IMcpTool`; the fields besides the
ones shown are carried opaquely by the spread `{...tool}`). -/
structure IMcpTool where
  name : String
deriving DecidableEq, Repr

/-- `IAggregatedTool`: the server's tool together with the
`serverName` added by the spread `{...tool, serverName}`. -/
structure IAggregatedTool where
  tool : IMcpTool
  serverName : String
deriving DecidableEq, Repr

structure IMcpResource where
  uri : String
deriving DecidableEq, Repr

structure IAggregatedResource where
  resource : IMcpResource
  serverName : String
deriving DecidableEq, Repr

structure IMcpPrompt where
  name : String
deriving DecidableEq, Repr

structure IAggregatedPrompt where
  prompt : IMcpPrompt
  serverName : String
deriving DecidableEq, Repr

/-- What one server's `sendRequest` for a list call produced:
a rejection (timeout, transport closed, send failure, malformed...)
or a resolution whose `result` field (outer `Option`) may be absent
and whose `result.tools` (inner `Option`) may be absent — the code
guards on `response.result && response.result.tools`. -/
inductive ListCallResult (α : Type) where
  | rejected
  | resolved (result : Option (Option (List α)))
deriving DecidableEq, Repr

/-- The contribution of one server to `listTools`: the `catch` turns a
rejection into `[]`, a missing `result`/`tools` yields `[]`, and
otherwise every tool is tagged with the server's name. -/
def listToolsFromServer (serverName : String)
    (r : ListCallResult IMcpTool) : List IAggregatedTool :=
  match r with
  | .rejected => []
  | .resolved none => []
  | .resolved (some none) => []
  | .resolved (some (some tools)) =>
      tools.map (fun t => ⟨t, serverName⟩)

/-- `McpClient.listTools`: one `tools/list` request per registered
server (in registry iteration order), each settled independently, then
`Promise.all` + `flat`. -/
def listTools (servers : List (String × ListCallResult IMcpTool)) :
    List IAggregatedTool :=
  (servers.map (fun p => listToolsFromServer p.1 p.2)).flatten

def listResourcesFromServer (serverName : String)
    (r : ListCallResult IMcpResource) : List IAggregatedResource :=
  match r with
  | .rejected => []
  | .resolved none => []
  | .resolved (some none) => []
  | .resolved (some (some rs)) => rs.map (fun x => ⟨x, serverName⟩)

/-- `McpClient.listResources`, same shape as `listTools`. -/
def listResources
    (servers : List (String × ListCallResult IMcpResource)) :
    List IAggregatedResource :=
  (servers.map (fun p => listResourcesFromServer p.1 p.2)).flatten

def listPromptsFromServer (serverName : String)
    (r : ListCallResult IMcpPrompt) : List IAggregatedPrompt :=
  match r with
  | .rejected => []
  | .resolved none => []
  | .resolved (some none) => []
  | .resolved (some (some ps)) => ps.map (fun x => ⟨x, serverName⟩)

/-- `McpClient.listPrompts`, same shape as `listTools`. -/
def listPrompts
    (servers : List (String × ListCallResult IMcpPrompt)) :
    List IAggregatedPrompt :=
  (servers.map (fun p => listPromptsFromServer p.1 p.2)).flatten

/-- The spec's description of list aggregation, stated independently
for comparison: the concatenation, in server iteration order, of each
server's own items in their own order, each augmented with its source
server's name; a failed or item-less server contributes zero items. -/
def specItemsOf {α : Type} (r : ListCallResult α) : List α :=
  match r with
  | .resolved (some (some xs)) => xs
  | _ => []

/-- Spec-side formulation of `listTools` (see `specItemsOf`). -/
def listToolsSpecSide
    (servers : List (String × ListCallResult IMcpTool)) :
    List IAggregatedTool :=
  servers.flatMap (fun p => (specItemsOf p.2).map (fun t => ⟨t, p.1⟩))

def listResourcesSpecSide
    (servers : List (String × ListCallResult IMcpResource)) :
    List IAggregatedResource :=
  servers.flatMap (fun p => (specItemsOf p.2).map (fun x => ⟨x, p.1⟩))

def listPromptsSpecSide
    (servers : List (String × ListCallResult IMcpPrompt)) :
    List IAggregatedPrompt :=
  servers.flatMap (fun p => (specItemsOf p.2).map (fun x => ⟨x, p.1⟩))

/-- The Connection Registry: server name to live transport, in `Map`
insertion order. -/
abbrev McpRegistry := List (String × TState)

/-- Result of one per-server connect attempt inside
`McpClient.connect` (`transport.connect()` resolving or rejecting). -/
inductive ConnectOutcome where
  | success
  | failure
deriving DecidableEq, Repr

/-- `McpClient.connect`, per-configuration-entry: an empty
configuration throws `NoServersConfigured`; otherwise all servers are
connected concurrently, each success is registered
(`this.servers.set`) with a connected transport, each failure is
logged and rethrown, and `Promise.all` makes the overall call fail iff
any entry failed.  Returns the resulting registry (name, connected
flag) and whether the overall `connect()` call succeeded. -/
def connectModel (cfg : List (String × ConnectOutcome)) :
    List (String × Bool) × Bool :=
  if cfg.isEmpty then ([], false)
  else
    (cfg.filterMap
       (fun p => if p.2 = ConnectOutcome.success then some (p.1, true) else none),
     cfg.all (fun p => p.2 = ConnectOutcome.success))

/-- `isServerConnected` over the registry view produced by
`connectModel`. -/
def regIsConnected (r : List (String × Bool)) (n : String) : Bool :=
  match r.find? (fun p => p.1 = n) with
  | some p => p.2
  | none => false

/-- Replace the named server's transport state in the registry. -/
def updateServer (r : McpRegistry) (n : String) (st : TState) :
    McpRegistry :=
  r.map (fun p => if p.1 = n then (p.1, st) else p)

/-- Outcome of `McpClient.callTool` up to the point where the caller
either has an immediate error or a registered in-flight request. -/
inductive CallOutcome where
  | serverNotFound
  | notConnectedErr
  | inFlight
deriving DecidableEq, Repr

/-- `McpClient.callTool` (also `readResource` / `getPrompt`, which are
identical up to the method name): look the server up in the registry
and throw `Server not found` before building any request; otherwise
build the request (`createRequest`, consuming id `k`) and run
`sendRequest`, which throws `Transport not connected` before
registering a pending entry when the transport is down. -/
def callToolStep (r : McpRegistry) (n : String) (k : Int) :
    McpRegistry × CallOutcome :=
  match r.find? (fun p => p.1 = n) with
  | none => (r, .serverNotFound)
  | some p =>
    (updateServer r n (sendStep p.2 k).1,
     if p.2.connected then .inFlight else .notConnectedErr)

/-- `McpClient.getConnectedServers`: the registry's key list (not a
connectivity check). -/
def getConnectedServers (r : McpRegistry) : List String :=
  r.map Prod.fst

/-- `McpClient.isServerConnected`: the transport's `connected` flag, or
`false` for an unknown name. -/
def isServerConnected (r : McpRegistry) (n : String) : Bool :=
  match r.find? (fun p => p.1 = n) with
  | some p => p.2.connected
  | none => false

/-- A post-connect transport failure (stream end, process exit,
mid-session event-stream error): the transport runs its own
`cleanup`; the aggregator's registry is not involved. -/
def transportDeath (r : McpRegistry) (n : String) : McpRegistry :=
  r.map (fun p => if p.1 = n then (p.1, (cleanupStep p.2).1) else p)

/-- `McpClient.disconnect`: disconnect every transport (each runs
`cleanup`), then `this.servers.clear()`. -/
def clientDisconnect (_r : McpRegistry) : McpRegistry := []

/-! ## Event-stream (SSE) connect (`SseTransport.connect`) -/

/-- Events delivered on the `EventSource` during and after
`SseTransport.connect`. -/
inductive SseEvent where
  | endpointEvt (data : String)
  | messageEvt (data : String)
  | openEvt
  | errorEvt
deriving DecidableEq, Repr

/-- How the promise returned by `connect()` was settled. -/
inductive SseSettle where
  | resolvedOk
  | rejectedErr
deriving DecidableEq, Repr

/-- State captured by the `connect()` closure: the transport's
`connected` flag, the `receivedEvent` local, the recorded message
endpoint, whether the `EventSource` is still open, and the settlement
of the connect promise (a JavaScript promise settles at most once). -/
structure SseState where
  connected : Bool
  receivedEvent : Bool
  messageEndpoint : Option String
  esOpen : Bool
  promise : Option SseSettle
deriving DecidableEq, Repr

def sseInit : SseState :=
  ⟨false, false, none, true, none⟩

/-- First settlement wins: a settled promise ignores later
resolutions/rejections. -/
def settleOnce (p : Option SseSettle) (o : SseSettle) : Option SseSettle :=
  match p with
  | some x => some x
  | none => some o

/-- The event handlers installed by `SseTransport.connect`: the
`endpoint` listener records the session endpoint, marks the transport
connected and resolves; `onmessage` marks `receivedEvent` (and feeds
`handleResponse`, modelled separately by `handleResponseStep`); the
`open` listener only logs; `onerror` rejects and closes the
`EventSource` only when neither `connected` nor `receivedEvent` is
set, and otherwise logs and runs `cleanup` (which clears `connected`)
without settling the promise. -/
def sseStep (st : SseState) : SseEvent → SseState
  | .endpointEvt d =>
      { st with
          receivedEvent := true,
          messageEndpoint := some d,
          connected := true,
          promise := settleOnce st.promise .resolvedOk }
  | .messageEvt _ => { st with receivedEvent := true }
  | .openEvt => st
  | .errorEvt =>
      if st.connected = false ∧ st.receivedEvent = false then
        { st with
            esOpen := false,
            promise := settleOnce st.promise .rejectedErr }
      else
        { st with connected := false }

/-- Running the SSE connect state machine over a delivered event
sequence. -/
def sseRun (evs : List SseEvent) : SseState :=
  evs.foldl sseStep sseInit

/-- `i` is an id the process-wide counter has already handed out (the
counter starts at 0 and `generateRequestId` pre-increments, so every
issued id is a positive integer below the counter's next value). -/
def goodId (bound : Int) (i : RpcId) : Prop :=
  ∃ k : Int, i = RpcId.num k ∧ 1 ≤ k ∧ k < bound

/-- Invariants of every reachable transport state, relative to the
actions emitted so far: table keys are distinct counter-issued ids,
outstanding `sendMessage` ids are counter-issued, a settled id no
longer has a table entry and can never be re-issued, and every table
entry's timer deadline is exactly `requestTimeout` after its send
instant. -/
structure Inv (st : TState) (acts : List Act) : Prop where
  nodup : (keys st.table).Nodup
  tbl : ∀ p ∈ st.table, goodId st.nextId p.1
  snd : ∀ i ∈ st.sending, goodId st.nextId i
  settled : ∀ i : RpcId, (∃ a ∈ acts, settlesId i a = true) →
    i ∉ keys st.table ∧ ∃ k : Int, i = RpcId.num k ∧ k < st.nextId
  one_le : 1 ≤ st.nextId
  deadline : ∀ p ∈ st.table, ∃ t0, (p.1, t0) ∈ st.sentAt ∧
    p.2 = t0 + requestTimeout

/-- A transport that has connected and sent request 1 at time 0: the
state `(step (step initT Ev.connectOk).1 (Ev.send 1)).1`. -/
def stPending : TState :=
  (step (step initT Ev.connectOk).1 (Ev.send 1)).1

/-- A syntactically valid response object for id 1 whose `error` field
is `null`. -/
def respNullErr : RespObj :=
  ⟨some "2.0", IdField.idv (RpcId.num 1), ErrField.nullv, none⟩

/-- A well-formed success response for id 1. -/
def respOkOne : RespObj :=
  ⟨some "2.0", IdField.idv (RpcId.num 1), ErrField.undef, some "ok"⟩

/-! ## Table lemmas -/

lemma mem_keys {t : List (RpcId × Nat)} {i : RpcId} :
    i ∈ keys t ↔ ∃ d, (i, d) ∈ t := by
  constructor
  · intro h
    rcases List.mem_map.mp h with ⟨⟨a, b⟩, hm, hab⟩
    have ha : a = i := hab
    exact ⟨b, by rwa [ha] at hm⟩
  · rintro ⟨d, hd⟩
    exact List.mem_map_of_mem Prod.fst hd

lemma not_mem_keys_mapDelete (t : List (RpcId × Nat)) (i : RpcId) :
    i ∉ keys (mapDelete t i) := by
  intro h
  rcases List.mem_map.mp h with ⟨p, hp, hpi⟩
  have hne := List.of_mem_filter hp
  simp only [decide_eq_true_eq] at hne
  exact hne hpi

lemma mem_of_mem_mapDelete {t : List (RpcId × Nat)} {i : RpcId}
    {p : RpcId × Nat} (h : p ∈ mapDelete t i) : p ∈ t :=
  List.mem_of_mem_filter h

lemma mem_keys_of_mem_keys_mapDelete {t : List (RpcId × Nat)}
    {i j : RpcId} (h : j ∈ keys (mapDelete t i)) : j ∈ keys t := by
  rcases mem_keys.mp h with ⟨d, hd⟩
  exact mem_keys.mpr ⟨d, mem_of_mem_mapDelete hd⟩

lemma keys_mapDelete (t : List (RpcId × Nat)) (i : RpcId) :
    keys (mapDelete t i) = (keys t).filter (fun j => j ≠ i) := by
  induction t with
  | nil => rfl
  | cons p t ih =>
    by_cases h : p.1 = i <;>
      simp [mapDelete, keys, List.filter_cons, h] at * <;>
      simpa [mapDelete, keys] using ih

lemma nodup_keys_mapDelete {t : List (RpcId × Nat)}
    (h : (keys t).Nodup) (i : RpcId) : (keys (mapDelete t i)).Nodup := by
  rw [keys_mapDelete]
  exact h.filter _

lemma keys_append_single (t : List (RpcId × Nat)) (i : RpcId) (d : Nat) :
    keys (t ++ [(i, d)]) = keys t ++ [i] := by
  simp [keys]

lemma mapSet_fresh {t : List (RpcId × Nat)} {i : RpcId}
    (h : i ∉ keys t) (d : Nat) : mapSet t i d = t ++ [(i, d)] := by
  simp [mapSet, h]

/-! ## Reachability invariants -/

lemma goodId_mono {b b' : Int} {i : RpcId} (h : goodId b i) (hb : b ≤ b') :
    goodId b' i := by
  rcases h with ⟨k, hk, h1, h2⟩
  exact ⟨k, hk, h1, lt_of_lt_of_le h2 hb⟩

lemma inv_init : Inv initT [] := by
  refine ⟨?_, ?_, ?_, ?_, ?_, ?_⟩ <;> simp [initT, keys]

lemma settles_of_append_nil {acts : List Act} {i : RpcId}
    (h : ∃ a ∈ acts ++ ([] : List Act), settlesId i a = true) :
    ∃ a ∈ acts, settlesId i a = true := by
  simpa using h

/-! Characterizations of `handleResponseStep` by case. -/

lemma handleResponseStep_error {st : TState} {f : Frame} {e : String}
    (hv : validateResponse f = Except.error e) :
    handleResponseStep st f = (st, [Act.logged e]) := by
  unfold handleResponseStep
  rw [hv]

lemma handleResponseStep_undefId {st : TState} {f : Frame} {r : RespObj}
    (hv : validateResponse f = Except.ok r) (hid : r.id = IdField.undef) :
    handleResponseStep st f = (st, []) := by
  unfold handleResponseStep
  rw [hv]
  dsimp only
  rw [hid]

lemma handleResponseStep_nullId {st : TState} {f : Frame} {r : RespObj}
    (hv : validateResponse f = Except.ok r) (hid : r.id = IdField.nullv) :
    handleResponseStep st f = (st, []) := by
  unfold handleResponseStep
  rw [hv]
  dsimp only
  rw [hid]

lemma handleResponseStep_falsyId {st : TState} {f : Frame} {r : RespObj}
    {i : RpcId} (hv : validateResponse f = Except.ok r)
    (hid : r.id = IdField.idv i) (ht : idTruthy i = false) :
    handleResponseStep st f = (st, []) := by
  unfold handleResponseStep
  rw [hv]
  dsimp only
  rw [hid]
  simp [ht]

lemma handleResponseStep_notMem {st : TState} {f : Frame} {r : RespObj}
    {i : RpcId} (hv : validateResponse f = Except.ok r)
    (hid : r.id = IdField.idv i) (hnm : i ∉ keys st.table) :
    handleResponseStep st f = (st, []) := by
  unfold handleResponseStep
  rw [hv]
  dsimp only
  rw [hid]
  by_cases ht : idTruthy i
  · simp [ht, hnm]
  · simp [ht]

lemma handleResponseStep_found {st : TState} {f : Frame} {r : RespObj}
    {i : RpcId} (hv : validateResponse f = Except.ok r)
    (hid : r.id = IdField.idv i) (ht : idTruthy i = true)
    (hm : i ∈ keys st.table) :
    handleResponseStep st f =
      ({ st with table := mapDelete st.table i },
       match r.error with
       | ErrField.undef => [Act.settle i (Outcome.resolvedResp r)]
       | ErrField.nullv => [Act.logged "TypeError: cannot read code of null"]
       | ErrField.objv c m => [Act.settle i (Outcome.rpcErr c m)]) := by
  unfold handleResponseStep
  rw [hv]
  dsimp only
  rw [hid]
  simp only [ht, if_true, hm, if_pos]
  cases r.error <;> rfl

lemma handleResponseStep_found_ok {st : TState} {f : Frame} {r : RespObj}
    {i : RpcId} (hv : validateResponse f = Except.ok r)
    (hid : r.id = IdField.idv i) (ht : idTruthy i = true)
    (hm : i ∈ keys st.table) (herr : r.error = ErrField.undef) :
    handleResponseStep st f =
      ({ st with table := mapDelete st.table i },
       [Act.settle i (Outcome.resolvedResp r)]) := by
  rw [handleResponseStep_found hv hid ht hm, herr]

lemma handleResponseStep_found_rpcErr {st : TState} {f : Frame} {r : RespObj}
    {i : RpcId} {c : Int} {m : String} (hv : validateResponse f = Except.ok r)
    (hid : r.id = IdField.idv i) (ht : idTruthy i = true)
    (hm : i ∈ keys st.table) (herr : r.error = ErrField.objv c m) :
    handleResponseStep st f =
      ({ st with table := mapDelete st.table i },
       [Act.settle i (Outcome.rpcErr c m)]) := by
  rw [handleResponseStep_found hv hid ht hm, herr]

lemma handleResponseStep_found_nullErr {st : TState} {f : Frame} {r : RespObj}
    {i : RpcId} (hv : validateResponse f = Except.ok r)
    (hid : r.id = IdField.idv i) (ht : idTruthy i = true)
    (hm : i ∈ keys st.table) (herr : r.error = ErrField.nullv) :
    handleResponseStep st f =
      ({ st with table := mapDelete st.table i },
       [Act.logged "TypeError: cannot read code of null"]) := by
  rw [handleResponseStep_found hv hid ht hm, herr]

lemma inv_step {st : TState} {acts : List Act} {e : Ev}
    (h : Inv st acts) (he : enabled st e = true) :
    Inv (step st e).1 (acts ++ (step st e).2) := by
  cases e with
  | connectOk =>
    exact ⟨h.nodup, h.tbl, h.snd,
      fun i hi => h.settled i (settles_of_append_nil hi), h.one_le, h.deadline⟩
  | send k =>
    have hk : st.nextId ≤ k := by simpa [enabled] using he
    by_cases hc : st.connected
    · have hfresh : RpcId.num k ∉ keys st.table := by
        intro hmem
        rcases mem_keys.mp hmem with ⟨d, hd⟩
        rcases h.tbl _ hd with ⟨k', hk', h1, h2⟩
        have hkk : k = k' := RpcId.num.inj hk'
        omega
      have h1n := h.one_le
      simp only [step, sendStep, if_pos hc]
      rw [mapSet_fresh hfresh]
      refine ⟨?_, ?_, ?_, ?_, ?_, ?_⟩ <;> (try dsimp only)
      · rw [keys_append_single]
        refine List.Nodup.append h.nodup (List.nodup_singleton _) ?_
        intro a ha hb
        rcases List.mem_singleton.mp hb with rfl
        exact hfresh ha
      · intro p hp
        rcases List.mem_append.mp hp with hp | hp
        · exact goodId_mono (h.tbl p hp) (by omega)
        · rcases List.mem_singleton.mp hp with rfl
          exact ⟨k, rfl, by omega, by omega⟩
      · intro i hi
        rcases List.mem_append.mp hi with hi | hi
        · exact goodId_mono (h.snd i hi) (by omega)
        · rcases List.mem_singleton.mp hi with rfl
          exact ⟨k, rfl, by omega, by omega⟩
      · intro i hi
        rcases h.settled i (settles_of_append_nil hi) with ⟨hni, k', hk', h2⟩
        constructor
        · rw [keys_append_single]
          intro hmem
          rcases List.mem_append.mp hmem with hm | hm
          · exact hni hm
          · rcases List.mem_singleton.mp hm with rfl
            have hkk : k' = k := RpcId.num.inj hk'.symm
            omega
        · exact ⟨k', hk', by omega⟩
      · have := h.one_le; omega
      · intro p hp
        rcases List.mem_append.mp hp with hp | hp
        · rcases h.deadline p hp with ⟨t0, ht0, hdl⟩
          exact ⟨t0, List.mem_append.mpr (Or.inl ht0), hdl⟩
        · rcases List.mem_singleton.mp hp with rfl
          exact ⟨st.now, List.mem_append.mpr (Or.inr (List.mem_singleton.mpr rfl)), rfl⟩
    · have h1n := h.one_le
      simp only [step, sendStep, if_neg hc]
      refine ⟨h.nodup, ?_, ?_, ?_, ?_, h.deadline⟩ <;> (try dsimp only)
      · intro p hp; exact goodId_mono (h.tbl p hp) (by omega)
      · intro i hi; exact goodId_mono (h.snd i hi) (by omega)
      · intro i hi
        have hi' : ∃ a ∈ acts, settlesId i a = true := by
          rcases hi with ⟨a, ha, hs⟩
          rcases List.mem_append.mp ha with ha | ha
          · exact ⟨a, ha, hs⟩
          · rcases List.mem_singleton.mp ha with rfl
            simp [settlesId] at hs
        rcases h.settled i hi' with ⟨hni, k', hk', h2⟩
        exact ⟨hni, k', hk', by omega⟩
      · have := h.one_le; omega
  | sendOk i =>
    refine ⟨h.nodup, h.tbl, ?_, fun j hj => h.settled j (settles_of_append_nil hj),
      h.one_le, h.deadline⟩
    intro j hj
    exact h.snd j (List.mem_of_mem_erase hj)
  | sendFail i =>
    have hi : i ∈ st.sending := by simpa [enabled] using he
    simp only [step, sendFailStep]
    refine ⟨nodup_keys_mapDelete h.nodup i, ?_, ?_, ?_, h.one_le, ?_⟩
    · intro p hp; exact h.tbl p (mem_of_mem_mapDelete hp)
    · intro j hj; exact h.snd j (List.mem_of_mem_erase hj)
    · intro j hj
      rcases hj with ⟨a, ha, hs⟩
      rcases List.mem_append.mp ha with ha | ha
      · rcases h.settled j ⟨a, ha, hs⟩ with ⟨hni, k', hk', h2⟩
        exact ⟨fun hm => hni (mem_keys_of_mem_keys_mapDelete hm), k', hk', h2⟩
      · rcases List.mem_singleton.mp ha with rfl
        have hji : i = j := by simpa [settlesId] using hs
        subst hji
        rcases h.snd i hi with ⟨k', hk', h1, h2⟩
        exact ⟨not_mem_keys_mapDelete st.table i, k', hk', h2⟩
    · intro p hp
      exact h.deadline p (mem_of_mem_mapDelete hp)
  | frame f =>
    have keep : handleResponseStep st f = (st, (handleResponseStep st f).2) →
        (∀ a ∈ (handleResponseStep st f).2, ∀ j : RpcId, settlesId j a = false) →
        Inv (step st (Ev.frame f)).1 (acts ++ (step st (Ev.frame f)).2) := by
      intro hst hnos
      have h1 : (step st (Ev.frame f)).1 = st := by
        show (handleResponseStep st f).1 = st
        rw [hst]
      rw [h1]
      refine ⟨h.nodup, h.tbl, h.snd, ?_, h.one_le, h.deadline⟩
      intro j hj
      apply h.settled
      rcases hj with ⟨a, ha, hs⟩
      rcases List.mem_append.mp ha with ha | ha
      · exact ⟨a, ha, hs⟩
      · exact absurd hs (by simp [hnos a ha j])
    rcases hv : validateResponse f with e | r
    · refine keep ?_ ?_
      · rw [handleResponseStep_error hv]
      · rw [handleResponseStep_error hv]
        intro a ha j
        rcases List.mem_singleton.mp ha with rfl
        rfl
    · rcases hid : r.id with _ | _ | i
      · refine keep ?_ ?_ <;> rw [handleResponseStep_undefId hv hid] <;> simp
      · refine keep ?_ ?_ <;> rw [handleResponseStep_nullId hv hid] <;> simp
      · rcases ht : idTruthy i with _ | _
        · refine keep ?_ ?_ <;> rw [handleResponseStep_falsyId hv hid ht] <;> simp
        · by_cases hm : i ∈ keys st.table
          · have hbound : ∃ k : Int, i = RpcId.num k ∧ k < st.nextId := by
              rcases mem_keys.mp hm with ⟨d, hd⟩
              rcases h.tbl _ hd with ⟨k', hk', h1, h2⟩
              exact ⟨k', hk', h2⟩
            have hstep : (step st (Ev.frame f)).1 =
                { st with table := mapDelete st.table i } := by
              show (handleResponseStep st f).1 = _
              rw [handleResponseStep_found hv hid ht hm]
            have hacts : ∀ a ∈ (handleResponseStep st f).2, ∀ j : RpcId,
                settlesId j a = true → i = j := by
              rcases herr : r.error with _ | _ | ⟨c, msg⟩
              · rw [handleResponseStep_found_ok hv hid ht hm herr]
                intro a ha j hs
                rcases List.mem_singleton.mp ha with rfl
                simpa [settlesId] using hs
              · rw [handleResponseStep_found_nullErr hv hid ht hm herr]
                intro a ha j hs
                rcases List.mem_singleton.mp ha with rfl
                exact absurd hs (by simp [settlesId])
              · rw [handleResponseStep_found_rpcErr hv hid ht hm herr]
                intro a ha j hs
                rcases List.mem_singleton.mp ha with rfl
                simpa [settlesId] using hs
            rw [hstep]
            refine ⟨nodup_keys_mapDelete h.nodup i,
              (fun p hp => h.tbl p (mem_of_mem_mapDelete hp)), h.snd, ?_,
              h.one_le, (fun p hp => h.deadline p (mem_of_mem_mapDelete hp))⟩
            intro j hj
            rcases hj with ⟨a, ha, hs⟩
            rcases List.mem_append.mp ha with ha | ha
            · rcases h.settled j ⟨a, ha, hs⟩ with ⟨hni, k', hk', h2⟩
              exact ⟨fun hmem => hni (mem_keys_of_mem_keys_mapDelete hmem),
                k', hk', h2⟩
            · have hji := hacts a ha j hs
              subst hji
              exact ⟨not_mem_keys_mapDelete st.table i, hbound⟩
          · refine keep ?_ ?_ <;> rw [handleResponseStep_notMem hv hid hm] <;> simp
  | fire i =>
    have hi : (i, st.now) ∈ st.table := by simpa [enabled] using he
    simp only [step, fireStep]
    refine ⟨nodup_keys_mapDelete h.nodup i, ?_, h.snd, ?_, h.one_le, ?_⟩
    · intro p hp; exact h.tbl p (mem_of_mem_mapDelete hp)
    · intro j hj
      rcases hj with ⟨a, ha, hs⟩
      rcases List.mem_append.mp ha with ha | ha
      · rcases h.settled j ⟨a, ha, hs⟩ with ⟨hni, k', hk', h2⟩
        exact ⟨fun hmem => hni (mem_keys_of_mem_keys_mapDelete hmem), k', hk', h2⟩
      · rcases List.mem_singleton.mp ha with rfl
        have hji : i = j := by simpa [settlesId] using hs
        subst hji
        rcases h.tbl _ hi with ⟨k', hk', h1, h2⟩
        exact ⟨not_mem_keys_mapDelete st.table i, k', hk', h2⟩
    · intro p hp
      exact h.deadline p (mem_of_mem_mapDelete hp)
  | close =>
    simp only [step, cleanupStep]
    refine ⟨by simp [keys], by simp, h.snd, ?_, h.one_le, by simp⟩
    intro j hj
    refine ⟨by simp [keys], ?_⟩
    rcases hj with ⟨a, ha, hs⟩
    rcases List.mem_append.mp ha with ha | ha
    · rcases h.settled j ⟨a, ha, hs⟩ with ⟨_, k', hk', h2⟩
      exact ⟨k', hk', h2⟩
    · rcases List.mem_map.mp ha with ⟨p, hp, rfl⟩
      have hji : p.1 = j := by simpa [settlesId] using hs
      rcases h.tbl p hp with ⟨k', hk', h1, h2⟩
      exact ⟨k', hji ▸ hk', h2⟩
  | advance d =>
    exact ⟨h.nodup, h.tbl, h.snd,
      fun j hj => h.settled j (settles_of_append_nil hj), h.one_le, h.deadline⟩

lemma inv_of_trace {st : TState} {acts : List Act}
    (h : Trace st acts) : Inv st acts := by
  induction h with
  | nil => exact inv_init
  | cons _ he ih => exact inv_step ih he

lemma settles_of_prim {i : RpcId} {a : Act}
    (h : primSettle i a = true) : settlesId i a = true := by
  cases a with
  | settle j o =>
    simp only [primSettle, Bool.and_eq_true] at h
    simp [settlesId, h.1]
  | logged m => simp [primSettle] at h
  | threw m => simp [primSettle] at h

/-- Every response-, timer- or cleanup-path settlement emitted by an
enabled event is for an id that was in the table just before the
event. -/
lemma prim_settle_mem_table {st : TState} {e : Ev} {i : RpcId} {a : Act}
    (he : enabled st e = true) (ha : a ∈ (step st e).2)
    (hp : primSettle i a = true) : i ∈ keys st.table := by
  cases e with
  | connectOk => simp [step] at ha
  | send k =>
    by_cases hc : st.connected
    · simp [step, sendStep, hc] at ha
    · simp only [step, sendStep, if_neg hc] at ha
      rcases List.mem_singleton.mp ha with rfl
      simp [primSettle] at hp
  | sendOk j => simp [step] at ha
  | sendFail j =>
    simp only [step, sendFailStep] at ha
    rcases List.mem_singleton.mp ha with rfl
    simp [primSettle] at hp
  | frame f =>
    simp only [step] at ha
    rcases hv : validateResponse f with ev | r
    · rw [handleResponseStep_error hv] at ha
      rcases List.mem_singleton.mp ha with rfl
      simp [primSettle] at hp
    · rcases hid : r.id with _ | _ | j
      · rw [handleResponseStep_undefId hv hid] at ha
        simp at ha
      · rw [handleResponseStep_nullId hv hid] at ha
        simp at ha
      · rcases ht : idTruthy j with _ | _
        · rw [handleResponseStep_falsyId hv hid ht] at ha
          simp at ha
        · by_cases hm : j ∈ keys st.table
          · rcases herr : r.error with _ | _ | ⟨c, msg⟩
            · rw [handleResponseStep_found_ok hv hid ht hm herr] at ha
              rcases List.mem_singleton.mp ha with rfl
              have : j = i := by
                simpa [primSettle] using hp
              exact this ▸ hm
            · rw [handleResponseStep_found_nullErr hv hid ht hm herr] at ha
              rcases List.mem_singleton.mp ha with rfl
              simp [primSettle] at hp
            · rw [handleResponseStep_found_rpcErr hv hid ht hm herr] at ha
              rcases List.mem_singleton.mp ha with rfl
              have : j = i := by
                simpa [primSettle] using hp
              exact this ▸ hm
          · rw [handleResponseStep_notMem hv hid hm] at ha
            simp at ha
  | fire j =>
    have hj : (j, st.now) ∈ st.table := by simpa [enabled] using he
    simp only [step, fireStep] at ha
    rcases List.mem_singleton.mp ha with rfl
    have : j = i := by simpa [primSettle] using hp
    exact this ▸ mem_keys.mpr ⟨st.now, hj⟩
  | close =>
    simp only [step, cleanupStep] at ha
    rcases List.mem_map.mp ha with ⟨p, hp2, rfl⟩
    have : p.1 = i := by simpa [primSettle] using hp
    exact this ▸ List.mem_map_of_mem Prod.fst hp2
  | advance d => simp [step] at ha

/-- Every settlement emitted by an enabled event leaves the settled id
absent from the post-event table. -/
lemma settle_removed {st : TState} {e : Ev} {i : RpcId} {a : Act}
    (he : enabled st e = true) (ha : a ∈ (step st e).2)
    (hs : settlesId i a = true) : i ∉ keys (step st e).1.table := by
  cases e with
  | connectOk => simp [step] at ha
  | send k =>
    by_cases hc : st.connected
    · simp [step, sendStep, hc] at ha
    · simp only [step, sendStep, if_neg hc] at ha
      rcases List.mem_singleton.mp ha with rfl
      simp [settlesId] at hs
  | sendOk j => simp [step] at ha
  | sendFail j =>
    simp only [step, sendFailStep] at ha
    rcases List.mem_singleton.mp ha with rfl
    have : j = i := by simpa [settlesId] using hs
    subst this
    exact not_mem_keys_mapDelete st.table j
  | frame f =>
    simp only [step] at ha
    rcases hv : validateResponse f with ev | r
    · rw [handleResponseStep_error hv] at ha
      rcases List.mem_singleton.mp ha with rfl
      simp [settlesId] at hs
    · rcases hid : r.id with _ | _ | j
      · rw [handleResponseStep_undefId hv hid] at ha
        simp at ha
      · rw [handleResponseStep_nullId hv hid] at ha
        simp at ha
      · rcases ht : idTruthy j with _ | _
        · rw [handleResponseStep_falsyId hv hid ht] at ha
          simp at ha
        · by_cases hm : j ∈ keys st.table
          · rcases herr : r.error with _ | _ | ⟨c, msg⟩
            · have hst := handleResponseStep_found_ok hv hid ht hm herr
              rw [hst] at ha
              rcases List.mem_singleton.mp ha with rfl
              have hji : j = i := by simpa [settlesId] using hs
              subst hji
              show j ∉ keys (handleResponseStep st f).1.table
              rw [hst]
              exact not_mem_keys_mapDelete st.table j
            · have hst := handleResponseStep_found_nullErr hv hid ht hm herr
              rw [hst] at ha
              rcases List.mem_singleton.mp ha with rfl
              simp [settlesId] at hs
            · have hst := handleResponseStep_found_rpcErr hv hid ht hm herr
              rw [hst] at ha
              rcases List.mem_singleton.mp ha with rfl
              have hji : j = i := by simpa [settlesId] using hs
              subst hji
              show j ∉ keys (handleResponseStep st f).1.table
              rw [hst]
              exact not_mem_keys_mapDelete st.table j
          · rw [handleResponseStep_notMem hv hid hm] at ha
            simp at ha
  | fire j =>
    simp only [step, fireStep] at ha
    rcases List.mem_singleton.mp ha with rfl
    have : j = i := by simpa [settlesId] using hs
    subst this
    exact not_mem_keys_mapDelete st.table j
  | close =>
    show i ∉ keys (cleanupStep st).1.table
    simp [cleanupStep, keys]
  | advance d => simp [step] at ha

lemma close_filter_le_one (t : List (RpcId × Nat))
    (hn : (keys t).Nodup) (i : RpcId) :
    ((t.map (fun p => Act.settle p.1 Outcome.closedErr)).filter
      (settlesId i)).length ≤ 1 := by
  induction t with
  | nil => simp
  | cons p t ih =>
    have hc := List.nodup_cons.mp (show (p.1 :: keys t).Nodup by simpa [keys] using hn)
    by_cases hpi : p.1 = i
    · have hnotin : i ∉ keys t := by
        have h1 := hc.1
        rwa [hpi] at h1
      have hz : (t.map (fun p => Act.settle p.1 Outcome.closedErr)).filter
          (settlesId i) = [] := by
        rw [List.filter_eq_nil_iff]
        intro a ha
        rcases List.mem_map.mp ha with ⟨q, hq, rfl⟩
        simp only [settlesId, decide_eq_true_eq]
        intro hqi
        exact hnotin (hqi ▸ List.mem_map_of_mem Prod.fst hq)
      simp [List.filter_cons, settlesId, hpi, hz]
    · simp only [List.map_cons, List.filter_cons, settlesId, hpi]
      simpa [settlesId, hpi] using ih (by simp [keys] at hn; exact hn.2)

/-- One enabled event emits at most one settlement per id (the only
multi-action event, `close`, settles each distinct table key once). -/
lemma step_settle_le_one {st : TState} {e : Ev} {i : RpcId}
    (hn : (keys st.table).Nodup) :
    ((step st e).2.filter (settlesId i)).length ≤ 1 := by
  have single : ∀ (a : Act), (([a] : List Act).filter (settlesId i)).length ≤ 1 := by
    intro a
    by_cases hsa : settlesId i a = true <;> simp [List.filter_cons, hsa]
  have empty : ((([] : List Act)).filter (settlesId i)).length ≤ 1 := by simp
  cases e with
  | connectOk => exact empty
  | send k =>
    by_cases hc : st.connected
    · simpa [step, sendStep, hc] using empty
    · simpa [step, sendStep, hc] using single (Act.threw "Transport not connected")
  | sendOk j => exact empty
  | sendFail j => exact single _
  | frame f =>
    show ((handleResponseStep st f).2.filter (settlesId i)).length ≤ 1
    rcases hv : validateResponse f with ev | r
    · rw [handleResponseStep_error hv]; exact single _
    · rcases hid : r.id with _ | _ | j
      · rw [handleResponseStep_undefId hv hid]; exact empty
      · rw [handleResponseStep_nullId hv hid]; exact empty
      · rcases ht : idTruthy j with _ | _
        · rw [handleResponseStep_falsyId hv hid ht]; exact empty
        · by_cases hm : j ∈ keys st.table
          · rcases herr : r.error with _ | _ | ⟨c, msg⟩
            · rw [handleResponseStep_found_ok hv hid ht hm herr]; exact single _
            · rw [handleResponseStep_found_nullErr hv hid ht hm herr]; exact single _
            · rw [handleResponseStep_found_rpcErr hv hid ht hm herr]; exact single _
          · rw [handleResponseStep_notMem hv hid hm]; exact empty
  | fire j => exact single _
  | close =>
    show ((st.table.map (fun p => Act.settle p.1 Outcome.closedErr)).filter
      (settlesId i)).length ≤ 1
    exact close_filter_le_one st.table hn i
  | advance d => exact empty

lemma two_le_filter_of_get {α : Type} {l : List α} {p : α → Bool}
    {j k : Nat} (hj : j < l.length) (hk : k < l.length) (hjk : j < k)
    (hpj : p (l.get ⟨j, hj⟩) = true) (hpk : p (l.get ⟨k, hk⟩) = true) :
    2 ≤ (l.filter p).length := by
  induction l generalizing j k with
  | nil => simp at hj
  | cons a t ih =>
    cases j with
    | zero =>
      have hpa : p a = true := hpj
      cases k with
      | zero => omega
      | succ k' =>
        have hk' : k' < t.length := by simpa using hk
        have hx : t.get ⟨k', hk'⟩ ∈ t := List.get_mem t k' hk'
        have hmem : t.get ⟨k', hk'⟩ ∈ t.filter p :=
          List.mem_filter.mpr ⟨hx, hpk⟩
        have h1 : 1 ≤ (t.filter p).length :=
          List.length_pos.mpr (List.ne_nil_of_mem hmem)
        simp only [List.filter_cons, hpa, if_true, List.length_cons]
        omega
    | succ j' =>
      cases k with
      | zero => omega
      | succ k' =>
        have hj' : j' < t.length := by simpa using hj
        have hk' : k' < t.length := by simpa using hk
        have ihr := ih hj' hk' (by omega) hpj hpk
        by_cases hpa : p a = true <;> simp [List.filter_cons, hpa] <;> omega

lemma trace_settled_not_mem {st : TState} {acts : List Act} {i : RpcId}
    (h : Trace st acts) (hs : ∃ a ∈ acts, settlesId i a = true) :
    i ∉ keys st.table :=
  ((inv_of_trace h).settled i hs).1

/-- Along any execution, once an action settles id `i`, no strictly
later action settles `i` through the response, timer or cleanup
paths. -/
lemma no_late_prim {st : TState} {acts : List Act} (h : Trace st acts) :
    ∀ (i : RpcId) (j k : Nat) (hj : j < acts.length) (hk : k < acts.length),
      j < k → settlesId i (acts.get ⟨j, hj⟩) = true →
      primSettle i (acts.get ⟨k, hk⟩) = false := by
  induction h with
  | nil => intro i j k hj; simp at hj
  | cons ht he ih =>
    rename_i st0 acts0 e
    intro i j k hj hk hjk hs
    by_cases hkn : k < acts0.length
    · have hjn : j < acts0.length := lt_trans hjk hkn
      have e1 : (acts0 ++ (step st0 e).2).get ⟨j, hj⟩ = acts0.get ⟨j, hjn⟩ := by
        simp only [List.get_eq_getElem]
        exact List.getElem_append_left hjn
      have e2 : (acts0 ++ (step st0 e).2).get ⟨k, hk⟩ = acts0.get ⟨k, hkn⟩ := by
        simp only [List.get_eq_getElem]
        exact List.getElem_append_left hkn
      rw [e1] at hs
      rw [e2]
      exact ih i j k hjn hkn hjk hs
    · push_neg at hkn
      have hk2 : k - acts0.length < (step st0 e).2.length := by
        have h3 := hk
        simp only [List.length_append] at h3
        omega
      have e2 : (acts0 ++ (step st0 e).2).get ⟨k, hk⟩
          = (step st0 e).2.get ⟨k - acts0.length, hk2⟩ := by
        simp only [List.get_eq_getElem]
        exact List.getElem_append_right hkn
      have hb : (acts0 ++ (step st0 e).2).get ⟨k, hk⟩ ∈ (step st0 e).2 := by
        rw [e2]
        exact List.get_mem _ _ _
      by_cases hjn : j < acts0.length
      · have e1 : (acts0 ++ (step st0 e).2).get ⟨j, hj⟩ = acts0.get ⟨j, hjn⟩ := by
          simp only [List.get_eq_getElem]
          exact List.getElem_append_left hjn
        rw [e1] at hs
        have hset : ∃ a ∈ acts0, settlesId i a = true :=
          ⟨_, List.get_mem _ _ _, hs⟩
        have hnm : i ∉ keys st0.table := trace_settled_not_mem ht hset
        cases hp : primSettle i ((acts0 ++ (step st0 e).2).get ⟨k, hk⟩) with
        | false => rfl
        | true => exact absurd (prim_settle_mem_table he hb hp) hnm
      · push_neg at hjn
        have hj2 : j - acts0.length < (step st0 e).2.length := by
          have h3 := hj
          simp only [List.length_append] at h3
          omega
        have e1 : (acts0 ++ (step st0 e).2).get ⟨j, hj⟩
            = (step st0 e).2.get ⟨j - acts0.length, hj2⟩ := by
          simp only [List.get_eq_getElem]
          exact List.getElem_append_right hjn
        cases hp : primSettle i ((acts0 ++ (step st0 e).2).get ⟨k, hk⟩) with
        | false => rfl
        | true =>
          exfalso
          rw [e1] at hs
          rw [e2] at hp
          have hsk := settles_of_prim hp
          have h2 := two_le_filter_of_get hj2 hk2 (by omega) hs hsk
          have h1 := @step_settle_le_one st0 e i (inv_of_trace ht).nodup
          omega

/-- C1: for every transport and every request id, a pending request is
settled at most once.  Along any execution: (a) the pending-request
table never holds two entries for one id; (b) once an action settles an
id — response, timeout, send failure or cleanup — no later action
settles that id through the response, timer-expiry or cleanup paths;
(c) a response frame whose id is not a table key (in particular a
duplicate of an already-settled id) is discarded without touching the
table; (d) every settlement emitted by an event removes the id's table
entry in the same atomic step. -/
theorem request_settled_at_most_once {st : TState} {acts : List Act}
    (h : Trace st acts) :
    (keys st.table).Nodup ∧
    (∀ (i : RpcId) (j k : Nat) (hj : j < acts.length) (hk : k < acts.length),
       j < k → settlesId i (acts.get ⟨j, hj⟩) = true →
       primSettle i (acts.get ⟨k, hk⟩) = false) ∧
    (∀ (st2 : TState) (f : Frame) (r : RespObj) (i : RpcId),
       validateResponse f = Except.ok r → r.id = IdField.idv i →
       i ∉ keys st2.table → handleResponseStep st2 f = (st2, [])) ∧
    (∀ (e : Ev) (i : RpcId) (a : Act), enabled st e = true →
       a ∈ (step st e).2 → settlesId i a = true →
       i ∉ keys (step st e).1.table) :=
  ⟨(inv_of_trace h).nodup,
   no_late_prim h,
   fun _ _ _ _ hv hid hnm => handleResponseStep_notMem hv hid hnm,
   fun _ _ _ he ha hs => settle_removed he ha hs⟩

/-- Witness for C1 at a concrete two-step execution: connect, then send
the first request. -/
theorem request_settled_at_most_once_witness :
    (keys ((step (step initT Ev.connectOk).1 (Ev.send 1)).1.table)).Nodup :=
  (request_settled_at_most_once
    (Trace.cons (Trace.cons Trace.nil (by decide)) (by decide))).1

/-- C2 (amended): for every inbound frame, if the text is not a
well-formed JSON object with jsonrpc tag '2.0' and an id field, it is
logged and discarded, no exception escapes (the handler is total), and
the pending table is unchanged; if its id is null or not a key of the
pending table, it is discarded; otherwise — given that table keys are
counter-issued positive ids, as in every reachable state — the
matching PendingRequest is removed from the table and its waiter is
resolved with the response when the error field is absent, rejected
with an RpcError wrapping the response's error code and message when
the error field is a non-null object, and — deviating from the
original claim — neither resolved nor rejected when the error field is
present but null: the rejection attempt itself throws, is caught and
logged, and the entry is still removed. -/
theorem handle_incoming_cases (st : TState) (f : Frame)
    (hpos : ∀ p ∈ st.table, ∃ k : Int, p.1 = RpcId.num k ∧ 1 ≤ k) :
    (∀ e, validateResponse f = Except.error e →
       handleResponseStep st f = (st, [Act.logged e])) ∧
    (∀ r, validateResponse f = Except.ok r → r.id = IdField.nullv →
       handleResponseStep st f = (st, [])) ∧
    (∀ r i, validateResponse f = Except.ok r → r.id = IdField.idv i →
       i ∉ keys st.table → handleResponseStep st f = (st, [])) ∧
    (∀ r i, validateResponse f = Except.ok r → r.id = IdField.idv i →
       i ∈ keys st.table →
       (handleResponseStep st f).1.table = mapDelete st.table i ∧
       i ∉ keys (handleResponseStep st f).1.table ∧
       (r.error = ErrField.undef →
          (handleResponseStep st f).2 = [Act.settle i (Outcome.resolvedResp r)]) ∧
       (∀ c m, r.error = ErrField.objv c m →
          (handleResponseStep st f).2 = [Act.settle i (Outcome.rpcErr c m)]) ∧
       (r.error = ErrField.nullv →
          (handleResponseStep st f).2 =
            [Act.logged "TypeError: cannot read code of null"])) := by
  refine ⟨?_, ?_, ?_, ?_⟩
  · intro e hv
    exact handleResponseStep_error hv
  · intro r hv hid
    exact handleResponseStep_nullId hv hid
  · intro r i hv hid hnm
    exact handleResponseStep_notMem hv hid hnm
  · intro r i hv hid hm
    have ht : idTruthy i = true := by
      rcases mem_keys.mp hm with ⟨d, hd⟩
      rcases hpos _ hd with ⟨k, hk, h1⟩
      have hik : i = RpcId.num k := hk
      rw [hik]
      simp only [idTruthy, decide_eq_true_eq]
      omega
    refine ⟨?_, ?_, ?_, ?_, ?_⟩
    · rw [handleResponseStep_found hv hid ht hm]
    · rw [handleResponseStep_found hv hid ht hm]
      exact not_mem_keys_mapDelete st.table i
    · intro herr
      rw [handleResponseStep_found_ok hv hid ht hm herr]
    · intro c m herr
      rw [handleResponseStep_found_rpcErr hv hid ht hm herr]
    · intro herr
      rw [handleResponseStep_found_nullErr hv hid ht hm herr]

/-- Witness for C2 (amended) at a concrete pending state and a
well-formed success response. -/
theorem handle_incoming_cases_witness :
    (handleResponseStep stPending (Frame.obj respOkOne)).2
      = [Act.settle (RpcId.num 1) (Outcome.resolvedResp respOkOne)] := by
  have hpos : ∀ p ∈ stPending.table, ∃ k : Int, p.1 = RpcId.num k ∧ 1 ≤ k := by
    have htab : stPending.table = [(RpcId.num 1, 30000)] := by decide
    rw [htab]
    intro p hp
    rcases List.mem_singleton.mp hp with rfl
    exact ⟨1, rfl, by omega⟩
  have h := handle_incoming_cases stPending (Frame.obj respOkOne) hpos
  exact ((h.2.2.2 respOkOne (RpcId.num 1) rfl rfl (by decide)).2.2.1) rfl

/-- Counterexample for C2 as stated: the frame
`{"jsonrpc":"2.0","id":1,"error":null}` is a well-formed JSON object
with the protocol tag and an id field that is a key of the pending
table, and its error field is present; yet handling it settles no
waiter (it only removes the entry and logs the swallowed TypeError),
instead of rejecting the waiter with an RpcError as claimed. -/
theorem handle_incoming_null_error_counterexample :
    validateResponse (Frame.obj respNullErr) = Except.ok respNullErr ∧
    respNullErr.error ≠ ErrField.undef ∧
    RpcId.num 1 ∈ keys stPending.table ∧
    (∀ a ∈ (handleResponseStep stPending (Frame.obj respNullErr)).2,
       settlesId (RpcId.num 1) a = false) ∧
    (handleResponseStep stPending (Frame.obj respNullErr)).1.table = [] := by
  refine ⟨rfl, by decide, by decide, by decide, by decide⟩

/-- C3: on a connected transport whose response never arrives, the
request's timer can fire exactly when the clock reaches the send
instant plus `requestTimeout` (default 30000 ms); firing rejects the
waiter with the timeout error and removes the id from the
pending-request table, and the timer callback's behaviour is
independent of the transport's `connected` flag. -/
theorem timeout_rejects_exactly_on_deadline {st : TState}
    {acts : List Act} (i : RpcId) (h : Trace st acts)
    (hen : enabled st (Ev.fire i) = true) :
    requestTimeout = 30000 ∧
    (∃ t0, (i, t0) ∈ st.sentAt ∧ st.now = t0 + requestTimeout) ∧
    (step st (Ev.fire i)).2 = [Act.settle i (Outcome.timedOut i)] ∧
    i ∉ keys (step st (Ev.fire i)).1.table ∧
    (∀ b : Bool, fireStep { st with connected := b } i =
       ({ (fireStep st i).1 with connected := b }, (fireStep st i).2)) := by
  have hm : (i, st.now) ∈ st.table := by simpa [enabled] using hen
  refine ⟨rfl, ?_, rfl, ?_, ?_⟩
  · rcases (inv_of_trace h).deadline _ hm with ⟨t0, ht0, hdl⟩
    exact ⟨t0, ht0, hdl⟩
  · exact not_mem_keys_mapDelete st.table i
  · intro b
    rfl

/-- Witness for C3: connect, send request 1 at time 0, advance the
clock by 30000 ms; the timer for id 1 is then due, and it is due at
exactly the send instant plus the configured timeout. -/
theorem timeout_rejects_exactly_on_deadline_witness :
    requestTimeout = 30000 ∧
    (∃ t0, (RpcId.num 1, t0) ∈
        (step stPending (Ev.advance 30000)).1.sentAt ∧
      (step stPending (Ev.advance 30000)).1.now = t0 + requestTimeout) := by
  have tr1 : Trace (step initT Ev.connectOk).1 [] :=
    @Trace.cons initT [] Ev.connectOk Trace.nil (by decide)
  have tr2 : Trace stPending [] :=
    @Trace.cons (step initT Ev.connectOk).1 [] (Ev.send 1) tr1 (by decide)
  have tr3 : Trace (step stPending (Ev.advance 30000)).1 [] :=
    @Trace.cons stPending [] (Ev.advance 30000) tr2 (by decide)
  have h := timeout_rejects_exactly_on_deadline (RpcId.num 1) tr3 (by decide)
  exact ⟨h.1, h.2.1⟩

/-- C4: `cleanup()` (shared by every transport's `disconnect` and by
all post-connect failure paths) rejects every pending request with the
transport-disconnected error within the same synchronous step, clears
the table, marks the transport disconnected, and is idempotent: a
second call finds an empty table and settles nothing. -/
theorem disconnect_cleanup_rejects_all (st : TState) :
    (cleanupStep st).2
      = st.table.map (fun p => Act.settle p.1 Outcome.closedErr) ∧
    (∀ p ∈ st.table, Act.settle p.1 Outcome.closedErr ∈ (cleanupStep st).2) ∧
    (cleanupStep st).1.table = [] ∧
    (cleanupStep st).1.connected = false ∧
    step st Ev.close = cleanupStep st ∧
    (cleanupStep (cleanupStep st).1).2 = [] ∧
    (cleanupStep (cleanupStep st).1).1 = (cleanupStep st).1 := by
  refine ⟨rfl, ?_, rfl, rfl, rfl, rfl, rfl⟩
  intro p hp
  exact List.mem_map_of_mem _ hp

/-- Witness for C4 at a state holding one pending request. -/
theorem disconnect_cleanup_rejects_all_witness :
    Act.settle (RpcId.num 1) Outcome.closedErr ∈ (cleanupStep stPending).2 := by
  have h := disconnect_cleanup_rejects_all stPending
  exact h.2.1 (RpcId.num 1, 30000) (by decide)

/-! ## List aggregation (C5) -/

lemma listToolsFromServer_eq_spec (n : String) (r : ListCallResult IMcpTool) :
    listToolsFromServer n r = (specItemsOf r).map (fun t => ⟨t, n⟩) := by
  rcases r with _ | o
  · rfl
  · rcases o with _ | o2
    · rfl
    · rcases o2 with _ | ts <;> rfl

lemma listResourcesFromServer_eq_spec (n : String)
    (r : ListCallResult IMcpResource) :
    listResourcesFromServer n r = (specItemsOf r).map (fun x => ⟨x, n⟩) := by
  rcases r with _ | o
  · rfl
  · rcases o with _ | o2
    · rfl
    · rcases o2 with _ | xs <;> rfl

lemma listPromptsFromServer_eq_spec (n : String)
    (r : ListCallResult IMcpPrompt) :
    listPromptsFromServer n r = (specItemsOf r).map (fun x => ⟨x, n⟩) := by
  rcases r with _ | o
  · rfl
  · rcases o with _ | o2
    · rfl
    · rcases o2 with _ | xs <;> rfl

lemma listTools_eq_spec (servers : List (String × ListCallResult IMcpTool)) :
    listTools servers = listToolsSpecSide servers := by
  unfold listTools listToolsSpecSide
  rw [List.flatMap_def]
  congr 1
  exact List.map_congr_left (fun p _ => listToolsFromServer_eq_spec p.1 p.2)

lemma listResources_eq_spec
    (servers : List (String × ListCallResult IMcpResource)) :
    listResources servers = listResourcesSpecSide servers := by
  unfold listResources listResourcesSpecSide
  rw [List.flatMap_def]
  congr 1
  exact List.map_congr_left (fun p _ => listResourcesFromServer_eq_spec p.1 p.2)

lemma listPrompts_eq_spec
    (servers : List (String × ListCallResult IMcpPrompt)) :
    listPrompts servers = listPromptsSpecSide servers := by
  unfold listPrompts listPromptsSpecSide
  rw [List.flatMap_def]
  congr 1
  exact List.map_congr_left (fun p _ => listPromptsFromServer_eq_spec p.1 p.2)

lemma mem_listTools {servers : List (String × ListCallResult IMcpTool)}
    {a : IAggregatedTool} (h : a ∈ listTools servers) :
    ∃ p ∈ servers, a.serverName = p.1 ∧ a.tool ∈ specItemsOf p.2 := by
  induction servers with
  | nil => simp [listTools] at h
  | cons s rest ih =>
    simp only [listTools, List.map_cons, List.flatten_cons] at h
    rcases List.mem_append.mp h with h | h
    · rw [listToolsFromServer_eq_spec] at h
      rcases List.mem_map.mp h with ⟨t, ht, rfl⟩
      exact ⟨s, List.mem_cons_self s rest, rfl, ht⟩
    · rcases ih h with ⟨p, hp, h1, h2⟩
      exact ⟨p, List.mem_cons_of_mem s hp, h1, h2⟩

/-- C5: `listTools`/`listResources`/`listPrompts` issue one list
request per registered transport and return exactly the concatenation,
in server iteration order then per-server item order, of each server's
items tagged with the source server's name; a failed (or item-less)
server contributes zero items and never fails the whole call, and the
name tag is the only transformation applied. -/
theorem list_aggregation_concat_tagged :
    (∀ servers : List (String × ListCallResult IMcpTool),
       listTools servers = listToolsSpecSide servers) ∧
    (∀ servers : List (String × ListCallResult IMcpResource),
       listResources servers = listResourcesSpecSide servers) ∧
    (∀ servers : List (String × ListCallResult IMcpPrompt),
       listPrompts servers = listPromptsSpecSide servers) ∧
    (∀ n : String, listToolsFromServer n ListCallResult.rejected = [] ∧
       listResourcesFromServer n ListCallResult.rejected = [] ∧
       listPromptsFromServer n ListCallResult.rejected = []) ∧
    (∀ (s : String × ListCallResult IMcpTool)
       (rest : List (String × ListCallResult IMcpTool)),
       listTools (s :: rest) = listToolsFromServer s.1 s.2 ++ listTools rest) ∧
    (∀ (servers : List (String × ListCallResult IMcpTool))
       (a : IAggregatedTool), a ∈ listTools servers →
       ∃ p ∈ servers, a.serverName = p.1 ∧ a.tool ∈ specItemsOf p.2) ∧
    (∀ (n : String) (ts : List IMcpTool),
       (listToolsFromServer n (ListCallResult.resolved (some (some ts)))).map
         IAggregatedTool.tool = ts ∧
       ∀ a ∈ listToolsFromServer n (ListCallResult.resolved (some (some ts))),
         a.serverName = n) := by
  refine ⟨listTools_eq_spec, listResources_eq_spec, listPrompts_eq_spec,
    fun n => ⟨rfl, rfl, rfl⟩, fun s rest => rfl,
    fun servers a h => mem_listTools h, fun n ts => ⟨?_, ?_⟩⟩
  · simp [listToolsFromServer, Function.comp_def]
  · intro a ha
    simp only [listToolsFromServer] at ha
    rcases List.mem_map.mp ha with ⟨t, ht, rfl⟩
    rfl

/-- Witness for C5: two servers, the second failing its list call:
the result is exactly the first server's tools, tagged. -/
theorem list_aggregation_concat_tagged_witness :
    listTools
        [("A", ListCallResult.resolved (some (some [⟨"x"⟩]))),
         ("B", ListCallResult.rejected)]
      = listToolsSpecSide
        [("A", ListCallResult.resolved (some (some [⟨"x"⟩]))),
         ("B", ListCallResult.rejected)] :=
  list_aggregation_concat_tagged.1 _

/-! ## Aggregator connect (C6) -/

/-- C6: if at least one configured server fails to connect, the
overall `connect()` fails; yet every successfully connected server is
registered with a connected transport (observable via
`isServerConnected`), and no failed server is registered. -/
theorem connect_fails_but_keeps_successes
    (cfg : List (String × ConnectOutcome))
    (hfail : ∃ p ∈ cfg, p.2 = ConnectOutcome.failure)
    (hnd : (cfg.map Prod.fst).Nodup) :
    (connectModel cfg).2 = false ∧
    (∀ p ∈ cfg, p.2 = ConnectOutcome.success →
       (p.1, true) ∈ (connectModel cfg).1 ∧
       regIsConnected (connectModel cfg).1 p.1 = true) ∧
    (∀ p ∈ cfg, p.2 = ConnectOutcome.failure →
       p.1 ∉ (connectModel cfg).1.map Prod.fst) := by
  obtain ⟨q, hq, hqf⟩ := hfail
  have hemp : cfg.isEmpty = false := by
    cases cfg with
    | nil => simp at hq
    | cons a t => rfl
  have hreg : (connectModel cfg).1 = cfg.filterMap
      (fun p => if p.2 = ConnectOutcome.success then some (p.1, true) else none) := by
    unfold connectModel
    rw [hemp]
    rfl
  refine ⟨?_, ?_, ?_⟩
  · unfold connectModel
    rw [hemp]
    show cfg.all (fun p => p.2 = ConnectOutcome.success) = false
    cases hall : cfg.all (fun p => p.2 = ConnectOutcome.success) with
    | false => rfl
    | true =>
      exfalso
      have := List.all_eq_true.mp hall q hq
      rw [hqf] at this
      simp at this
  · intro p hp hps
    have hmem : (p.1, true) ∈ (connectModel cfg).1 := by
      rw [hreg]
      exact List.mem_filterMap.mpr ⟨p, hp, by rw [if_pos hps]⟩
    refine ⟨hmem, ?_⟩
    unfold regIsConnected
    rcases hfind : ((connectModel cfg).1).find? (fun q2 => q2.1 = p.1) with _ | q2
    · exfalso
      have := List.find?_eq_none.mp hfind _ hmem
      simp at this
    · rw [hfind]
      have hq2 := List.mem_of_find?_eq_some hfind
      rw [hreg] at hq2
      rcases List.mem_filterMap.mp hq2 with ⟨a, _, hfa⟩
      by_cases has : a.2 = ConnectOutcome.success
      · rw [if_pos has] at hfa
        cases hfa
        rfl
      · rw [if_neg has] at hfa
        cases hfa
  · intro p hp hpf hmem
    rcases List.mem_map.mp hmem with ⟨q2, hq2, hq2p⟩
    rw [hreg] at hq2
    rcases List.mem_filterMap.mp hq2 with ⟨a, ha, hfa⟩
    by_cases has : a.2 = ConnectOutcome.success
    · rw [if_pos has] at hfa
      cases hfa
      have hap : a = p :=
        List.inj_on_of_nodup_map hnd ha hp hq2p
      rw [hap] at has
      rw [has] at hpf
      cases hpf
    · rw [if_neg has] at hfa
      cases hfa

/-- Witness for C6 with one succeeding and one failing server. -/
theorem connect_fails_but_keeps_successes_witness :
    (connectModel [("a", ConnectOutcome.success),
                   ("b", ConnectOutcome.failure)]).2 = false ∧
    ("a", true) ∈ (connectModel [("a", ConnectOutcome.success),
                                 ("b", ConnectOutcome.failure)]).1 := by
  have h := connect_fails_but_keeps_successes
    [("a", ConnectOutcome.success), ("b", ConnectOutcome.failure)]
    ⟨("b", ConnectOutcome.failure), by decide, rfl⟩ (by decide)
  exact ⟨h.1, (h.2.1 ("a", ConnectOutcome.success) (by decide) rfl).1⟩

/-! ## Immediate call errors (C8) -/

/-- C8: `callTool`/`readResource`/`getPrompt` with an unknown server
name fail with ServerNotFound before any request is constructed (the
registry and all transports are untouched); with a registered but
disconnected server, `sendRequest` throws the not-connected error
before any PendingRequest is registered and before `sendMessage` runs;
both failures are synchronous, so the caller never hangs. -/
theorem call_unknown_or_disconnected_fails_fast :
    (∀ (r : McpRegistry) (n : String) (k : Int),
       r.find? (fun p => p.1 = n) = none →
       callToolStep r n k = (r, CallOutcome.serverNotFound)) ∧
    (∀ (r : McpRegistry) (n : String) (k : Int) (p : String × TState),
       r.find? (fun p => p.1 = n) = some p →
       p.2.connected = false →
       (callToolStep r n k).2 = CallOutcome.notConnectedErr ∧
       (sendStep p.2 k).1.table = p.2.table ∧
       (sendStep p.2 k).1.sending = p.2.sending ∧
       (sendStep p.2 k).2 = [Act.threw "Transport not connected"]) := by
  constructor
  · intro r n k hf
    unfold callToolStep
    rw [hf]
  · intro r n k p hf hc
    have hnc : ¬ p.2.connected = true := by
      rw [hc]
      simp
    have hs : sendStep p.2 k =
        ({ p.2 with nextId := k + 1 }, [Act.threw "Transport not connected"]) := by
      unfold sendStep
      rw [if_neg hnc]
    refine ⟨?_, ?_, ?_, ?_⟩
    · unfold callToolStep
      rw [hf]
      simp only [hc]
      rfl
    · rw [hs]
    · rw [hs]
    · rw [hs]

/-- Witness for C8: a one-server registry whose transport is not
connected; an unknown name and the known-but-disconnected name. -/
theorem call_unknown_or_disconnected_fails_fast_witness :
    callToolStep [("a", initT)] "zz" 5
      = ([("a", initT)], CallOutcome.serverNotFound) ∧
    (callToolStep [("a", initT)] "a" 5).2 = CallOutcome.notConnectedErr := by
  constructor
  · exact call_unknown_or_disconnected_fails_fast.1 [("a", initT)] "zz" 5
      (by decide)
  · exact (call_unknown_or_disconnected_fails_fast.2 [("a", initT)] "a" 5
      ("a", initT) (by decide) rfl).1

/-! ## SSE connect settlement (C9) -/

lemma sse_resolved_of_foldl (evs : List SseEvent) :
    ∀ st : SseState, (evs.foldl sseStep st).promise = some SseSettle.resolvedOk →
      st.promise = some SseSettle.resolvedOk ∨
        ∃ d, SseEvent.endpointEvt d ∈ evs := by
  induction evs with
  | nil =>
    intro st h
    exact Or.inl h
  | cons e t ih =>
    intro st h
    rcases ih (sseStep st e) h with h1 | ⟨d, hd⟩
    · cases e with
      | endpointEvt d => exact Or.inr ⟨d, List.mem_cons_self _ _⟩
      | messageEvt d => exact Or.inl h1
      | openEvt => exact Or.inl h1
      | errorEvt =>
        left
        by_cases hg : st.connected = false ∧ st.receivedEvent = false
        · have hpr : (sseStep st SseEvent.errorEvt).promise
              = settleOnce st.promise SseSettle.rejectedErr := by
            simp [sseStep, hg]
          rw [hpr] at h1
          rcases hp : st.promise with _ | x
          · rw [hp] at h1
            simp [settleOnce] at h1
          · rw [hp] at h1
            simpa [settleOnce] using h1
        · simpa [sseStep, hg] using h1
    · exact Or.inr ⟨d, List.mem_cons_of_mem e hd⟩

lemma sse_rejected_of_foldl (evs : List SseEvent) :
    ∀ st : SseState, (evs.foldl sseStep st).promise = some SseSettle.rejectedErr →
      st.promise = some SseSettle.rejectedErr ∨ SseEvent.errorEvt ∈ evs := by
  induction evs with
  | nil =>
    intro st h
    exact Or.inl h
  | cons e t ih =>
    intro st h
    rcases ih (sseStep st e) h with h1 | hd
    · cases e with
      | endpointEvt d =>
        left
        have hpr : (sseStep st (SseEvent.endpointEvt d)).promise
            = settleOnce st.promise SseSettle.resolvedOk := rfl
        rw [hpr] at h1
        rcases hp : st.promise with _ | x
        · rw [hp] at h1
          simp [settleOnce] at h1
        · rw [hp] at h1
          simpa [settleOnce] using h1
      | messageEvt d => exact Or.inl h1
      | openEvt => exact Or.inl h1
      | errorEvt => exact Or.inr (List.mem_cons_self _ _)
    · exact Or.inr (List.mem_cons_of_mem e hd)

/-- C9: the promise returned by the event-stream transport's
`connect()` is settled in exactly two ways: it is resolved only by the
`endpoint` event, which in the same step records the session message
endpoint and marks the transport connected; and it is rejected only by
an error event that arrives while the transport is neither connected
nor has received any event (i.e. before the session is established);
every other event leaves the settlement state unchanged. -/
theorem sse_connect_settles_two_ways :
    (∀ (st : SseState) (e : SseEvent),
       (sseStep st e).promise ≠ st.promise →
       st.promise = none ∧
       ((∃ d, e = SseEvent.endpointEvt d ∧
           (sseStep st e).promise = some SseSettle.resolvedOk ∧
           (sseStep st e).connected = true ∧
           (sseStep st e).messageEndpoint = some d) ∨
        (e = SseEvent.errorEvt ∧ st.connected = false ∧
           st.receivedEvent = false ∧
           (sseStep st e).promise = some SseSettle.rejectedErr))) ∧
    (∀ evs, (sseRun evs).promise = some SseSettle.resolvedOk →
       ∃ d, SseEvent.endpointEvt d ∈ evs) ∧
    (∀ evs, (sseRun evs).promise = some SseSettle.rejectedErr →
       SseEvent.errorEvt ∈ evs) := by
  refine ⟨?_, ?_, ?_⟩
  · intro st e hne
    cases e with
    | endpointEvt d =>
      rcases hp : st.promise with _ | x
      · refine ⟨rfl, Or.inl ⟨d, rfl, ?_, rfl, rfl⟩⟩
        show settleOnce st.promise SseSettle.resolvedOk = some SseSettle.resolvedOk
        rw [hp]
        rfl
      · exfalso
        apply hne
        show settleOnce st.promise SseSettle.resolvedOk = st.promise
        rw [hp]
        rfl
    | messageEvt d => exact absurd rfl hne
    | openEvt => exact absurd rfl hne
    | errorEvt =>
      by_cases hg : st.connected = false ∧ st.receivedEvent = false
      · have hpr : (sseStep st SseEvent.errorEvt).promise
            = settleOnce st.promise SseSettle.rejectedErr := by
          simp [sseStep, hg]
        rcases hp : st.promise with _ | x
        · refine ⟨rfl, Or.inr ⟨rfl, hg.1, hg.2, ?_⟩⟩
          rw [hpr, hp]
          rfl
        · exfalso
          apply hne
          rw [hpr, hp]
          rfl
      · exfalso
        apply hne
        simp [sseStep, hg]
  · intro evs h
    rcases sse_resolved_of_foldl evs sseInit h with h1 | h2
    · simp [sseInit] at h1
    · exact h2
  · intro evs h
    rcases sse_rejected_of_foldl evs sseInit h with h1 | h2
    · simp [sseInit] at h1
    · exact h2

/-- Witness for C9: from the initial connect state, the `endpoint`
event settles the promise by resolving it and marks the transport
connected with the endpoint recorded. -/
theorem sse_connect_settles_two_ways_witness :
    sseInit.promise = none ∧
    ((∃ d, SseEvent.endpointEvt "/session" = SseEvent.endpointEvt d ∧
        (sseStep sseInit (SseEvent.endpointEvt "/session")).promise
          = some SseSettle.resolvedOk ∧
        (sseStep sseInit (SseEvent.endpointEvt "/session")).connected = true ∧
        (sseStep sseInit (SseEvent.endpointEvt "/session")).messageEndpoint
          = some d) ∨
     (SseEvent.endpointEvt "/session" = SseEvent.errorEvt ∧
        sseInit.connected = false ∧ sseInit.receivedEvent = false ∧
        (sseStep sseInit (SseEvent.endpointEvt "/session")).promise
          = some SseSettle.rejectedErr)) :=
  sse_connect_settles_two_ways.1 sseInit (SseEvent.endpointEvt "/session")
    (by decide)

/-! ## Registry membership vs connectivity (C10) -/

lemma keys_map_keyPreserving (r : McpRegistry)
    (g : String × TState → TState) (n : String) :
    getConnectedServers
        (r.map (fun p => if p.1 = n then (p.1, g p) else p))
      = getConnectedServers r := by
  induction r with
  | nil => rfl
  | cons a t ih =>
    simp only [getConnectedServers, List.map_cons] at *
    by_cases h : a.1 = n
    · rw [if_pos h, ih]
    · rw [if_neg h, ih]

lemma find_transportDeath {r : McpRegistry} {n : String}
    {p : String × TState} (h : r.find? (fun q => q.1 = n) = some p) :
    (transportDeath r n).find? (fun q => q.1 = n)
      = some (p.1, (cleanupStep p.2).1) := by
  induction r with
  | nil => simp at h
  | cons a t ih =>
    by_cases ha : a.1 = n
    · rw [List.find?_cons_of_pos _ (by simp [ha])] at h
      injection h with h2
      rw [← h2]
      show List.find? _ ((if a.1 = n then (a.1, (cleanupStep a.2).1) else a) :: _)
        = _
      rw [if_pos ha]
      rw [List.find?_cons_of_pos _ (by simp [ha])]
    · rw [List.find?_cons_of_neg _ (by simp [ha])] at h
      show List.find? _ ((if a.1 = n then (a.1, (cleanupStep a.2).1) else a) :: _)
        = _
      rw [if_neg ha]
      rw [List.find?_cons_of_neg _ (by simp [ha])]
      exact ih h

/-- C10: after a post-connect transport failure runs `cleanup`, the
owning server's entry is still in the aggregator's registry:
`getConnectedServers` still lists its name, `callTool` still targets
its transport and observes the not-connected (TransportClosed) error,
while `isServerConnected` now returns false; registry keys are
preserved by transport death and by calls, and entries are removed
only by the aggregator's own `disconnect`, which clears the whole
registry. -/
theorem registry_survives_transport_death (r : McpRegistry) (n : String)
    (p : String × TState) (hf : r.find? (fun q => q.1 = n) = some p) :
    getConnectedServers (transportDeath r n) = getConnectedServers r ∧
    n ∈ getConnectedServers (transportDeath r n) ∧
    isServerConnected (transportDeath r n) n = false ∧
    (∀ k, (callToolStep (transportDeath r n) n k).2
       = CallOutcome.notConnectedErr) ∧
    (∀ m, getConnectedServers (transportDeath r m) = getConnectedServers r) ∧
    (∀ k, getConnectedServers (callToolStep r n k).1 = getConnectedServers r) ∧
    clientDisconnect (transportDeath r n) = [] := by
  have hpn : p.1 = n := by
    have := List.find?_some hf
    simpa using this
  have hkeys : ∀ m, getConnectedServers (transportDeath r m)
      = getConnectedServers r :=
    fun m => keys_map_keyPreserving r (fun q => (cleanupStep q.2).1) m
  refine ⟨hkeys n, ?_, ?_, ?_, hkeys, ?_, rfl⟩
  · rw [hkeys n]
    have hp := List.mem_of_find?_eq_some hf
    exact hpn ▸ List.mem_map_of_mem Prod.fst hp
  · unfold isServerConnected
    rw [find_transportDeath hf]
    rfl
  · intro k
    unfold callToolStep
    rw [find_transportDeath hf]
    rfl
  · intro k
    unfold callToolStep
    rw [hf]
    exact keys_map_keyPreserving r (fun _ => (sendStep p.2 k).1) n

/-- Witness for C10: a registry with one connected server whose
transport then dies. -/
theorem registry_survives_transport_death_witness :
    isServerConnected
        (transportDeath [("a", { initT with connected := true })] "a") "a"
      = false ∧
    getConnectedServers
        (transportDeath [("a", { initT with connected := true })] "a")
      = ["a"] := by
  have h := registry_survives_transport_death
    [("a", { initT with connected := true })] "a"
    ("a", { initT with connected := true }) (by decide)
  refine ⟨h.2.2.1, ?_⟩
  rw [h.1]
  rfl

/-! ## Newline framing is chunk-boundary invariant (C7) -/

lemma getLastD_concat_lines (xs : List (List Char)) (x : List Char) :
    (xs ++ [x]).getLastD [] = x := by
  induction xs with
  | nil => rfl
  | cons a t ih =>
    cases t with
    | nil => rfl
    | cons b t2 => exact ih

lemma splitNl_buffer_newline {b : List Char} (hb : '\n' ∉ b)
    (cs : List Char) : splitNl (b ++ '\n' :: cs) = b :: splitNl cs := by
  induction b with
  | nil => simp [splitNl]
  | cons x b' ih =>
    have hx : x ≠ '\n' := fun h => hb (h ▸ List.mem_cons_self x b')
    have hb' : '\n' ∉ b' := fun h => hb (List.mem_cons_of_mem x h)
    show splitNl (x :: (b' ++ '\n' :: cs)) = _
    simp only [splitNl, if_neg hx]
    rw [ih hb']

lemma feed_acc (l : List Char) :
    ∀ (ls : List (List Char)) (b : List Char),
      l.foldl feedChar (ls, b)
        = (ls ++ (l.foldl feedChar ([], b)).1, (l.foldl feedChar ([], b)).2) := by
  induction l with
  | nil => intro ls b; simp
  | cons c cs ih =>
    intro ls b
    by_cases hc : c = '\n'
    · show List.foldl feedChar (feedChar (ls, b) c) cs = _
      have h1 : feedChar (ls, b) c = (ls ++ [b], []) := by
        simp [feedChar, hc]
      have h2 : feedChar (([] : List (List Char)), b) c = ([] ++ [b], []) := by
        simp [feedChar, hc]
      rw [h1]
      show List.foldl feedChar (ls ++ [b], []) cs = _
      rw [ih (ls ++ [b]) [], List.foldl_cons, h2]
      rw [List.nil_append, ih [b] []]
      simp
    · show List.foldl feedChar (feedChar (ls, b) c) cs = _
      have h1 : feedChar (ls, b) c = (ls, b ++ [c]) := by
        simp [feedChar, hc]
      have h2 : feedChar (([] : List (List Char)), b) c = ([], b ++ [c]) := by
        simp [feedChar, hc]
      rw [h1, List.foldl_cons, h2]
      exact ih ls (b ++ [c])

lemma splitNl_bridge (l : List Char) :
    ∀ b : List Char, '\n' ∉ b →
      splitNl (b ++ l)
        = (l.foldl feedChar ([], b)).1 ++ [(l.foldl feedChar ([], b)).2] := by
  induction l with
  | nil =>
    intro b hb
    simp only [List.append_nil, List.foldl_nil]
    induction b with
    | nil => rfl
    | cons x b' ihb =>
      have hx : x ≠ '\n' := fun h => hb (h ▸ List.mem_cons_self x b')
      have hb' : '\n' ∉ b' := fun h => hb (List.mem_cons_of_mem x h)
      simp only [splitNl, if_neg hx]
      rw [ihb hb']
      rfl
  | cons c cs ih =>
    intro b hb
    by_cases hc : c = '\n'
    · subst hc
      rw [splitNl_buffer_newline hb]
      rw [List.foldl_cons]
      have h2 : feedChar (([] : List (List Char)), b) '\n' = ([b], []) := by
        simp [feedChar]
      rw [h2, feed_acc cs [b] []]
      have ihz := ih [] (by simp)
      rw [List.nil_append] at ihz
      rw [ihz]
      simp
    · have hbc : '\n' ∉ b ++ [c] := by
        intro h
        rcases List.mem_append.mp h with h | h
        · exact hb h
        · exact hc (List.mem_singleton.mp h).symm
      have : b ++ c :: cs = (b ++ [c]) ++ cs := by simp
      rw [this, ih (b ++ [c]) hbc, List.foldl_cons]
      have h2 : feedChar (([] : List (List Char)), b) c = ([], b ++ [c]) := by
        simp [feedChar, hc]
      rw [h2]

lemma handleStreamData_feed {b : List Char} (hb : '\n' ∉ b) (c : List Char) :
    handleStreamData b c
      = ((c.foldl feedChar ([], b)).2,
         processLines (c.foldl feedChar ([], b)).1) := by
  unfold handleStreamData processLines
  rw [splitNl_bridge c b hb, List.dropLast_concat, getLastD_concat_lines]

lemma feed_buffer_no_nl (l : List Char) :
    ∀ (ls : List (List Char)) (b : List Char), '\n' ∉ b →
      '\n' ∉ (l.foldl feedChar (ls, b)).2 := by
  induction l with
  | nil => intro ls b hb; exact hb
  | cons c cs ih =>
    intro ls b hb
    by_cases hc : c = '\n'
    · rw [List.foldl_cons]
      have h1 : feedChar (ls, b) c = (ls ++ [b], []) := by simp [feedChar, hc]
      rw [h1]
      exact ih (ls ++ [b]) [] (by simp)
    · rw [List.foldl_cons]
      have h1 : feedChar (ls, b) c = (ls, b ++ [c]) := by simp [feedChar, hc]
      rw [h1]
      refine ih ls (b ++ [c]) ?_
      intro h
      rcases List.mem_append.mp h with h | h
      · exact hb h
      · exact hc (List.mem_singleton.mp h).symm

lemma processLines_append (a b : List (List Char)) :
    processLines (a ++ b) = processLines a ++ processLines b := by
  simp [processLines]

lemma feed_no_newline_chunk (l : List Char) (hl : '\n' ∉ l) :
    ∀ (ls : List (List Char)) (b : List Char),
      l.foldl feedChar (ls, b) = (ls, b ++ l) := by
  induction l with
  | nil => intro ls b; simp
  | cons c cs ih =>
    intro ls b
    have hc : c ≠ '\n' := fun h => hl (h ▸ List.mem_cons_self c cs)
    have hcs : '\n' ∉ cs := fun h => hl (List.mem_cons_of_mem c h)
    rw [List.foldl_cons]
    have h1 : feedChar (ls, b) c = (ls, b ++ [c]) := by simp [feedChar, hc]
    rw [h1, ih hcs ls (b ++ [c])]
    simp

lemma processChunks_foldl (chunks : List (List Char)) :
    ∀ (b : List Char) (acc : List (List Char)), '\n' ∉ b →
      chunks.foldl
        (fun a c => ((handleStreamData a.1 c).1, a.2 ++ (handleStreamData a.1 c).2))
        (b, acc)
      = ((chunks.flatten.foldl feedChar ([], b)).2,
         acc ++ processLines (chunks.flatten.foldl feedChar ([], b)).1) := by
  induction chunks with
  | nil =>
    intro b acc hb
    simp [processLines]
  | cons c cs ih =>
    intro b acc hb
    rw [List.foldl_cons]
    have h1 := handleStreamData_feed hb c
    have hb1 : '\n' ∉ (c.foldl feedChar ([], b)).2 :=
      feed_buffer_no_nl c [] b hb
    rcases hF : c.foldl feedChar (([] : List (List Char)), b) with ⟨F1, F2⟩
    rw [hF] at h1 hb1
    rw [h1]
    show List.foldl _ (F2, acc ++ processLines F1) cs = _
    rw [ih F2 (acc ++ processLines F1) hb1]
    have hflat : (c :: cs).flatten = c ++ cs.flatten := rfl
    rw [hflat, List.foldl_append, hF, feed_acc cs.flatten F1 F2]
    rw [processLines_append]
    simp

lemma processChunks_eq_flatten (chunks : List (List Char)) :
    processChunks chunks
      = ((chunks.flatten.foldl feedChar ([], [])).2,
         processLines (chunks.flatten.foldl feedChar ([], [])).1) := by
  unfold processChunks
  have := processChunks_foldl chunks [] [] (by simp)
  simpa using this

/-- C7: the newline framing shared verbatim by
`HttpStreamTransport.handleStreamData` and
`StdioTransport.handleStreamData` delivers a sequence of complete,
trimmed, non-empty lines (and a final buffer) that depends only on the
concatenated byte stream, not on where the chunk boundaries fall — the
trailing incomplete line is retained in the buffer across chunks; in
particular, one newline-terminated message split across arbitrary
chunks is delivered exactly once: no loss, no duplication, no
merging. -/
theorem framing_invariant_under_chunking :
    (∀ c1 c2 : List (List Char), c1.flatten = c2.flatten →
       processChunks c1 = processChunks c2) ∧
    (∀ (msg : List Char) (chunks : List (List Char)),
       chunks.flatten = msg ++ ['\n'] → '\n' ∉ msg → jsTrim msg ≠ [] →
       processChunks chunks = ([], [jsTrim msg])) := by
  constructor
  · intro c1 c2 h
    rw [processChunks_eq_flatten, processChunks_eq_flatten, h]
  · intro msg chunks hfl hnl htr
    rw [processChunks_eq_flatten, hfl, List.foldl_append]
    rw [feed_no_newline_chunk msg hnl [] []]
    have h2 : feedChar (([] : List (List Char)), [] ++ msg) '\n'
        = ([[] ++ msg], []) := by
      simp [feedChar]
    rw [List.foldl_cons, h2, List.foldl_nil]
    simp [processLines, htr]

/-- Witness for C7: the message "hi\n" split in two different ways
yields the same single delivered line. -/
theorem framing_invariant_under_chunking_witness :
    processChunks [['h'], ['i', '\n', 'x']]
      = processChunks [['h', 'i'], ['\n'], ['x']] ∧
    processChunks [['h'], ['i', '\n']] = ([], [jsTrim ['h', 'i']]) := by
  constructor
  · exact framing_invariant_under_chunking.1 _ _ (by decide)
  · exact framing_invariant_under_chunking.2 ['h', 'i'] _ (by decide)
      (by decide) (by decide)

end Mck
